import Mathlib

/-!
# Verification of the transfer-learning toolkit's model lifecycle core

This development shallowly embeds the parts of the repository that the
specification's claims are about:

* `TFModel._parse_hostfile` (src/tlt/models/tf_model.py, lines 213-279):
  hostfile line classification against six anchored regular expressions and
  normalization to (ip, slot) pairs;
* `TFModel.export` (src/tlt/models/tf_model.py, lines 140-172): the
  versioned output directory scheme;
* `TFModel.set_auto_mixed_precision` (src/tlt/models/tf_model.py,
  lines 101-138);
* the quantize CLI orchestrator (module `tlt/tools/cli/commands/quantize.py`,
  which is not present under src/; it is modelled from the spec, guided by
  its tests in src/tests/tools/cli/test_quantize_cli.py, and by the abstract
  contract in src/tlt/models/model.py).

Strings are modelled as `List Char` where character-level reasoning is
needed; file system state is passed explicitly; fallible operations return
`Except`.
-/

namespace TLT

/-! ## Character classes used by the hostfile regexes -/

/-- ASCII decimal digit, the class `[0-9]` (also used for `\d`). -/
def isDigitChar (c : Char) : Bool := '0' ≤ c && c ≤ '9'

/-- The class `[a-zA-Z0-9]` used by the hostname regex. -/
def isAlnum (c : Char) : Bool :=
  ('a' ≤ c && c ≤ 'z') || ('A' ≤ c && c ≤ 'Z') || isDigitChar c

/-! ## Python `str.split` on a non-empty separator

`pySplit h t cs` is Python's `cs.split(h::t)`: it splits `cs` at every
(left-to-right, non-overlapping) occurrence of the separator `h :: t`.
The source uses `line.split(' slots=')` and `line.split(':')`, and the IP /
hostname regexes are decided below by splitting on `'.'`. -/

/-- Fuel-indexed splitting worker; the fuel only makes the recursion
structural (so that concrete inputs evaluate inside the kernel) and is
irrelevant as soon as it is at least the input's length
(`pySplitF_congr`). -/
def pySplitF (h : Char) (t : List Char) : Nat → List Char → List (List Char)
  | _, [] => [[]]
  | 0, cs => [cs]
  | fuel + 1, c :: cs =>
    if (h :: t).isPrefixOf (c :: cs) then
      [] :: pySplitF h t fuel ((c :: cs).drop (t.length + 1))
    else
      match pySplitF h t fuel cs with
      | [] => [[c]]
      | p :: ps => (c :: p) :: ps

def pySplit (h : Char) (t : List Char) (cs : List Char) : List (List Char) :=
  pySplitF h t cs.length cs

/-! ## The six hostfile line patterns

`TFModel._parse_hostfile` (tf_model.py lines 232-239) classifies each line
against six anchored regular expressions, tried in dictionary (insertion)
order.  Each pattern's language is decided below directly: an octet is the
alternation `25[0-5]|2[0-4][0-9]|1[0-9][0-9]|[1-9]?[0-9]`, an IP is four
octets joined by `'.'` (octets contain no `'.'`, so splitting on `'.'` is
exact), a hostname label is the alternation
`[a-zA-Z0-9]|[a-zA-Z0-9][a-zA-Z0-9\-]*[a-zA-Z0-9]`, a hostname is one or
more labels joined by `'.'`, and the `slots=` and `:` variants append the
separator and one or two digits — since the prefix languages contain
neither `' '` nor `':'` and the digit suffix contains neither, the
separator occurs exactly once in a matching line and splitting on it is
exact. -/

/-- Language of the octet alternation `25[0-5]|2[0-4][0-9]|1[0-9][0-9]|[1-9]?[0-9]`. -/
def isOctet : List Char → Bool
  | [c] => isDigitChar c
  | [c1, c2] => ('1' ≤ c1 && c1 ≤ '9') && isDigitChar c2
  | [c1, c2, c3] =>
      (c1 = '2' && c2 = '5' && ('0' ≤ c3 && c3 ≤ '5')) ||
      (c1 = '2' && ('0' ≤ c2 && c2 ≤ '4') && isDigitChar c3) ||
      (c1 = '1' && isDigitChar c2 && isDigitChar c3)
  | _ => false

/-- Language of the anchored IP regex `^(octet\.){3}octet$`. -/
def isIP (cs : List Char) : Bool :=
  match pySplit '.' [] cs with
  | [a, b, c, d] => isOctet a && isOctet b && isOctet c && isOctet d
  | _ => false

/-- Language of one hostname label
`[a-zA-Z0-9]|[a-zA-Z0-9][a-zA-Z0-9\-]*[a-zA-Z0-9]`. -/
def isLabel : List Char → Bool
  | [] => false
  | c :: rest =>
      isAlnum c && rest.all (fun x => isAlnum x || x = '-') &&
        (match rest.getLast? with
         | none => true
         | some l => isAlnum l)

/-- Language of the anchored hostname regex `^(label\.)*label$`. -/
def isHostname (cs : List Char) : Bool :=
  (pySplit '.' [] cs).all isLabel

/-- The suffix `[0-9]{1,2}` (respectively `\d{1,2}`) of the slot-bearing
patterns. -/
def isDigits12 (cs : List Char) : Bool :=
  (cs.length = 1 || cs.length = 2) && cs.all isDigitChar

/-- The separator `" slots="` of the `slots` patterns, with its leading
space split off for `pySplit`. -/
def slotsSepTail : List Char := ['s', 'l', 'o', 't', 's', '=']

/-- Language of `^P SEP D$` where the prefix language `P` is decided by
`pre`, the separator is `h :: t` and `D` is `[0-9]{1,2}`. -/
def matchesWithSuffix (pre : List Char → Bool) (h : Char) (t : List Char)
    (cs : List Char) : Bool :=
  match pySplit h t cs with
  | [a, d] => pre a && isDigits12 d
  | _ => false

/-- The six regex keys of `valid_regexes`, in dictionary (insertion) order. -/
inductive MatchKind
  | validIp
  | validIpWithSlot
  | validIpWithColon
  | validHostname
  | validHostnameWithSlot
  | validHostnameWithColon
deriving DecidableEq, Repr

/-- The first-match classification loop of `_parse_hostfile` (tf_model.py
lines 244-251): the six patterns are tried in insertion order and the key
of the first match is recorded. -/
def matchLine (l : List Char) : Option MatchKind :=
  if isIP l then some .validIp
  else if matchesWithSuffix isIP ' ' slotsSepTail l then some .validIpWithSlot
  else if matchesWithSuffix isIP ':' [] l then some .validIpWithColon
  else if isHostname l then some .validHostname
  else if matchesWithSuffix isHostname ' ' slotsSepTail l then some .validHostnameWithSlot
  else if matchesWithSuffix isHostname ':' [] l then some .validHostnameWithColon
  else none

/-- A value appended to `hostfile_info['slots']`: the code appends the
Python integer `0` for bare lines but the raw digit *substring* for
slot-bearing lines (tf_model.py lines 260-277), so the slot list is
heterogeneous. -/
inductive SlotVal
  | int (n : Nat)
  | str (s : List Char)
deriving DecidableEq, Repr

/-- The `hostfile_info` dictionary returned by `_parse_hostfile`. -/
structure HostfileInfo where
  ip_addresses : List (List Char)
  slots : List SlotVal
deriving DecidableEq, Repr

/-- `line.split(sep)[0]` of the source. -/
def part0 (h : Char) (t : List Char) (cs : List Char) : List Char :=
  (pySplit h t cs).getD 0 []

/-- `line.split(sep)[1]` of the source. -/
def part1 (h : Char) (t : List Char) (cs : List Char) : List Char :=
  (pySplit h t cs).getD 1 []

/-- One iteration of the second loop of `_parse_hostfile` (tf_model.py
lines 259-277): the entry appended for one (line, match) pair.  Hostnames
are resolved through `resolve`, which models `socket.gethostbyname`. -/
def normalizeLine (resolve : List Char → List Char) (l : List Char) :
    MatchKind → List Char × SlotVal
  | .validIp => (l, .int 0)
  | .validIpWithSlot => (part0 ' ' slotsSepTail l, .str (part1 ' ' slotsSepTail l))
  | .validIpWithColon => (part0 ':' [] l, .str (part1 ':' [] l))
  | .validHostname => (resolve l, .int 0)
  | .validHostnameWithSlot =>
      (resolve (part0 ' ' slotsSepTail l), .str (part1 ' ' slotsSepTail l))
  | .validHostnameWithColon =>
      (resolve (part0 ':' [] l), .str (part1 ':' [] l))

/-- The first loop of `_parse_hostfile`: classify every line, raising
`ValueError` on the first line matching none of the six patterns. -/
def matchAll : List (List Char) → Except (List Char) (List MatchKind)
  | [] => .ok []
  | l :: ls =>
    match matchLine l with
    | none => .error l
    | some k =>
      match matchAll ls with
      | .error e => .error e
      | .ok ks => .ok (k :: ks)

/-- The `ValueError` message raised by `_parse_hostfile` (tf_model.py
line 253). -/
def invalidLineMsg (l : List Char) : List Char :=
  "Invalid line in the hostfile: ".toList ++ l

/-- `TFModel._parse_hostfile` on the (already `rstrip`-ped) lines of the
hostfile: classify every line, then build `hostfile_info` by appending one
`(ip, slot)` entry per line in file order. -/
def parseHostfile (resolve : List Char → List Char) (lines : List (List Char)) :
    Except (List Char) HostfileInfo :=
  match matchAll lines with
  | .error l => .error (invalidLineMsg l)
  | .ok ks =>
    let pairs := (lines.zip ks).map fun p => normalizeLine resolve p.1 p.2
    .ok ⟨pairs.map Prod.fst, pairs.map Prod.snd⟩

/-! ## Decimal rendering of version numbers

Python's `"{}".format(n)` / `str(n)` on a non-negative integer.  The fuel
argument makes the recursion structural; `n + 1` units always suffice. -/

/-- Digits of `n`, least significant first, written with `fuel` recursion
units. -/
def natDigitsRev : Nat → Nat → List Char
  | 0, _ => []
  | fuel + 1, n =>
    if n < 10 then [Nat.digitChar n]
    else Nat.digitChar (n % 10) :: natDigitsRev fuel (n / 10)

/-- Decimal rendering of `n`, as a character list. -/
def natToChars (n : Nat) : List Char := (natDigitsRev (n + 1) n).reverse

/-- Decimal rendering of `n`, as a string (Python's `str(n)`). -/
def natToStr (n : Nat) : String := String.mk (natToChars n)

/-- Decimal un-rendering, least significant digit first; inverse of
`natDigitsRev`, used only to prove `natToStr` injective. -/
def ofDigitsRev : List Char → Nat
  | [] => 0
  | c :: cs => (c.toNat - '0'.toNat) + 10 * ofDigitsRev cs

/-! ## `TFModel.export` (tf_model.py lines 140-172)

The filesystem state `export` interacts with is the listing of
`<output_dir>/<val_model_name>`: `dirEntries = none` models a directory
that does not exist, `some es` one whose `os.listdir` returns `es` (a
duplicate-free listing).  `validate_model_name` lives in
`tlt/utils/file_utils` (not under src/) and is kept as an opaque
parameter; `os.path.join` is modelled as `"/"`-joining, and
`self._model.save(dir)` as creating the version entry in the listing.
`self._model` being set (by `load_from_directory` or `train`) is the
`modelLoaded` flag.  `verify_directory(output_dir)` (also from
`tlt/utils/file_utils`, not under src/) is assumed to succeed, i.e.
`output_dir` is a writable directory — its failure modes (output
directory existing as a file) are outside the claims. -/

structure ExportState where
  modelLoaded : Bool
  dirEntries : Option (List String)
deriving DecidableEq, Repr

/-- The `ValueError` message of `export` (tf_model.py line 172). -/
def exportErrMsg : String :=
  "Unable to export the model, because it hasn't been loaded or trained yet"

/-- The numbered directory chosen by `export` (tf_model.py lines 162-165):
`len(os.listdir(dir)) + 1` when the directory exists and is non-empty,
`"1"` otherwise. -/
def chooseVersion : Option (List String) → String
  | some es => if es.length ≠ 0 then natToStr (es.length + 1) else "1"
  | none => "1"

/-- Effect of `self._model.save(saved_model_dir)` on the model-name
directory's listing: the version entry is created (a directory listing
never holds duplicate names). -/
def saveEntries : Option (List String) → String → List String
  | some es, ver => if es.contains ver then es else es ++ [ver]
  | none, ver => [ver]

/-- `TFModel.export` (tf_model.py lines 140-172). -/
def exportModel (validateModelName : String → String) (outputDir modelName : String)
    (st : ExportState) : Except String (String × ExportState) :=
  if st.modelLoaded then
    let valModelName := validateModelName modelName
    let savedModelDir := outputDir ++ "/" ++ valModelName
    let ver := chooseVersion st.dirEntries
    .ok (savedModelDir ++ "/" ++ ver,
         ⟨st.modelLoaded, some (saveEntries st.dirEntries ver)⟩)
  else
    .error exportErrMsg

/-- A sequence of `n` `export` calls against the same output root; returns
the paths of the successful calls in order and the final state (the
sequence stops at the first failure). -/
def exportSeq (vf : String → String) (out name : String) :
    Nat → ExportState → List String × ExportState
  | 0, st => ([], st)
  | n + 1, st =>
    match exportModel vf out name st with
    | .ok (p, st1) =>
      let r := exportSeq vf out name n st1
      (p :: r.1, r.2)
    | .error _ => ([], st)

/-- An entry name consisting only of decimal digits — a "numbered
subdirectory" in the sense of the spec's Versioned Output Directory rule. -/
def isVersionDirName (s : String) : Bool :=
  !s.isEmpty && s.toList.all isDigitChar

/-- The numbered entries of a model-name directory listing. -/
def numberedCount : Option (List String) → Nat
  | some es => (es.filter isVersionDirName).length
  | none => 0

/-! ## `TFModel.set_auto_mixed_precision` (tf_model.py lines 101-138)

`tf.version.VERSION` is abstracted into the already-extracted
`(tfMajor, tfMinor)` pair plus the raw version string used in the warning
text; `PlatformUtil(args=None).cpu_type` is the `cpuType` argument, whose
`Except` models the `try/except` around platform detection.  The outcome
records what was printed and whether (and with which value)
`tf.config.optimizer.set_experimental_options` was invoked; the embedding
is a total function, matching the code's never-raising behavior for
well-typed `enable` arguments. -/

structure AMPOutcome where
  messages : List String
  optionSet : Option Bool
deriving DecidableEq, Repr

/-- `auto_mixed_precision_supported` (tf_model.py line 120). -/
def ampSupported (tfMajor tfMinor : Nat) : Bool :=
  (tfMajor == 2 && 9 ≤ tfMinor) || 2 < tfMajor

/-- The warning printed for an explicit request on an unsupported runtime
(tf_model.py lines 132-133). -/
def ampWarning (tfVersion : String) : String :=
  "Warning: Auto mixed precision requires TensorFlow 2.9.0 or later (found "
    ++ tfVersion ++ ")."

/-- The diagnostic printed when platform detection fails (tf_model.py
line 129). -/
def cpuDetectMsg (e : String) : String :=
  "Unable to determine the CPU type: " ++ e

/-- `TFModel.set_auto_mixed_precision` (tf_model.py lines 101-138). -/
def set_auto_mixed_precision (enable : Option Bool) (tfVersion : String)
    (tfMajor tfMinor : Nat) (cpuType : Except String String) : AMPOutcome :=
  let supported := ampSupported tfMajor tfMinor
  let resolved : Bool × List String :=
    match enable with
    | none =>
      match cpuType with
      | .ok cpu => (cpu == "SPR", [])
      | .error e => (false, if supported then [cpuDetectMsg e] else [])
    | some b => (b, if supported then [] else [ampWarning tfVersion])
  if supported then
    ⟨resolved.2 ++ (if resolved.1 then ["Enabling auto_mixed_precision_mkl"] else []),
     some resolved.1⟩
  else
    ⟨resolved.2, none⟩

/-! ## The quantize CLI orchestrator

The module `tlt/tools/cli/commands/quantize.py` is not present under
src/ — only its tests (src/tests/tools/cli/test_quantize_cli.py) and the
abstract contract it drives (src/tlt/models/model.py) are.  The
definitions below are modelled from the spec (§4.3 state machine, §6 CLI
surface and exit codes, §3 Compression Configuration), with message
strings and exit codes taken from the tests. -/

/-- The two framework tags (`FrameworkType` of `tlt/utils/types.py`, not
under src/; modelled from the spec's framework-tag enum). -/
inductive FrameworkType
  | tensorflow
  | pytorch
deriving DecidableEq, Repr

/-- Modelled from the spec: the framework name used in the
"not supported for ..." message of the tests. -/
def frameworkStr : FrameworkType → String
  | .tensorflow => "tensorflow"
  | .pytorch => "pytorch"

/-- Modelled from the spec: a raw CLI numeric-flag value after Python
parsing — an integer literal, a non-integer numeric literal, or a
non-numeric string. -/
inductive RawArg
  | int (n : Int)
  | num (q : Rat)
  | str (s : String)
deriving DecidableEq, Repr

/-- Modelled from the spec: `--max-trials INT>0` (§6). -/
def validMaxTrials : RawArg → Bool
  | .int n => 0 < n
  | _ => false

/-- Modelled from the spec: `--timeout INT≥0` (§6). -/
def validTimeout : RawArg → Bool
  | .int n => 0 ≤ n
  | _ => false

/-- Modelled from the spec: `--accuracy-criterion FLOAT in [0,1]` (§6). -/
def validAccuracyCriterion : RawArg → Bool
  | .int n => 0 ≤ n && n ≤ 1
  | .num q => 0 ≤ q && q ≤ 1
  | .str _ => false

/-- Calls the orchestrator makes on its collaborators (the model factory,
the dataset factory, and the model handle's config-generation and
quantization operations) — the calls the tests observe through mocks. -/
inductive Event
  | getModel (name : String) (fw : FrameworkType)
  | loadDataset (dir : String)
  | writeIncConfig (path : String)
  | quantizeCall (modelDir outputDir configPath : String)
deriving DecidableEq, Repr

/-- Outcome of one CLI invocation: process exit code, printed output, and
the collaborator calls made. -/
structure CLIResult where
  exitCode : Nat
  output : List String
  events : List Event
deriving DecidableEq, Repr

/-- One quantize CLI invocation's inputs and the relevant filesystem
facts: the `--model-dir` path (as components) and its contents, existence
of the model and dataset directories, the optional `--inc-config`, the raw
numeric flags (`none` = flag omitted, defaults apply), the existing
entries under `<output_dir>/quantized/<model_name>/`, and the model
registry backing `get_model`. -/
structure QuantizeInvocation where
  modelDirPath : List String
  modelDirFiles : List String
  modelDirExists : Bool
  datasetDir : String
  datasetDirExists : Bool
  outputDir : String
  incConfig : Option String
  maxTrials : Option RawArg
  timeoutArg : Option RawArg
  accuracyCriterion : Option RawArg
  quantizedEntries : List String
  knownModels : List (String × FrameworkType)
deriving DecidableEq, Repr

/-- Modelled from the spec (§4.3 step 1): the candidate model name is the
model directory's leaf name, or — when the leaf is a numeric version
suffix — the name of the directory above it. -/
def candidateModelName (path : List String) : Option String :=
  match path.getLast? with
  | none => none
  | some leaf => if isVersionDirName leaf then path.dropLast.getLast? else some leaf

/-- Modelled from the spec (§4.3 step 1): a `saved_model.pb` artifact
implies TensorFlow, a `model.pt` artifact implies PyTorch. -/
def detectFramework (files : List String) : Option FrameworkType :=
  if files.contains "saved_model.pb" then some .tensorflow
  else if files.contains "model.pt" then some .pytorch
  else none

/-- The fatal "unsupported model file" message
(test_quantize_cli.py lines 143-144). -/
def unsupportedModelMsg : String :=
  "Quantization is currently only implemented for TensorFlow saved_model.pb and PyTorch model.pt models."

/-- The argument-validation message prefix asserted by the tests. -/
def invalidValueMsg (flag : String) : String :=
  "Invalid value for '" ++ flag ++ "'"

/-- `os.path.join` over path components. -/
def joinPath (path : List String) : String :=
  String.intercalate "/" path

/-- Modelled from the spec: the quantize CLI command (§4.3 state machine;
§6 exit codes; §7 error taxonomy).  Argument validation (missing
directories, malformed numeric flags) happens before any model or dataset
work and exits with code 2; domain errors (unsupported model file, model
unknown to the registry) exit with code 1; on success the orchestrator
looks up the model, loads the dataset, resolves or generates the
compression config, and quantizes into the next versioned directory under
`<output_dir>/quantized/<model_name>/`. -/
def runQuantize (inv : QuantizeInvocation) : CLIResult :=
  if !inv.modelDirExists then
    ⟨2, [invalidValueMsg "--model-dir",
         "Directory '" ++ joinPath inv.modelDirPath ++ "' does not exist."], []⟩
  else if !inv.datasetDirExists then
    ⟨2, [invalidValueMsg "--dataset-dir",
         "Directory '" ++ inv.datasetDir ++ "' does not exist."], []⟩
  else if !inv.maxTrials.all validMaxTrials then
    ⟨2, [invalidValueMsg "--max-trials"], []⟩
  else if !inv.timeoutArg.all validTimeout then
    ⟨2, [invalidValueMsg "--timeout"], []⟩
  else if !inv.accuracyCriterion.all validAccuracyCriterion then
    ⟨2, [invalidValueMsg "--accuracy-criterion"], []⟩
  else
    match detectFramework inv.modelDirFiles with
    | none => ⟨1, [unsupportedModelMsg], []⟩
    | some fw =>
      match candidateModelName inv.modelDirPath with
      | none => ⟨1, ["An error occurred while getting the model"], []⟩
      | some name =>
        let factoryEvents := [Event.getModel name fw]
        if !inv.knownModels.contains (name, fw) then
          ⟨1, ["An error occurred while getting the model",
               "The specified model is not supported for " ++ frameworkStr fw],
           factoryEvents⟩
        else
          let events := factoryEvents ++ [Event.loadDataset inv.datasetDir]
          let quantDir := inv.outputDir ++ "/quantized/" ++ name ++ "/" ++
              natToStr (inv.quantizedEntries.length + 1)
          match inv.incConfig with
          | some cfg =>
            ⟨0, ["Quantized model written to " ++ quantDir],
             events ++ [Event.quantizeCall (joinPath inv.modelDirPath) quantDir cfg]⟩
          | none =>
            let cfg := quantDir ++ "/inc_config.yaml"
            ⟨0, ["Quantized model written to " ++ quantDir],
             events ++ [Event.writeIncConfig cfg,
                        Event.quantizeCall (joinPath inv.modelDirPath) quantDir cfg]⟩

/-- Modelled from the spec: `write_inc_config_file` as specified by its
abstract contract (src/tlt/models/model.py lines 114-135; the concrete
realization is not under src/): fails with a file-exists error if the
path exists and `overwrite` is false, otherwise writes the descriptor
file.  The filesystem is the list of existing file paths. -/
def write_inc_config_file (fs : List String) (path : String) (overwrite : Bool) :
    Except String (List String) :=
  if fs.contains path && !overwrite then
    .error ("FileExistsError: " ++ path)
  else
    .ok (if fs.contains path then fs else fs ++ [path])

/-- Number of config-generation calls in a trace. -/
def countConfigWrites (events : List Event) : Nat :=
  (events.filter fun e => match e with | .writeIncConfig _ => true | _ => false).length

/-- The model-factory calls of a trace. -/
def getModelEvents (events : List Event) : List Event :=
  events.filter fun e => match e with | .getModel _ _ => true | _ => false

instance {ε α : Type} [DecidableEq ε] [DecidableEq α] : DecidableEq (Except ε α) := fun a b =>
  match a, b with
  | .error e, .error f =>
    if h : e = f then .isTrue (by rw [h])
    else .isFalse (fun hc => by injection hc with h2; exact h h2)
  | .error _, .ok _ => .isFalse (fun hc => Except.noConfusion hc)
  | .ok _, .error _ => .isFalse (fun hc => Except.noConfusion hc)
  | .ok x, .ok y =>
    if h : x = y then .isTrue (by rw [h])
    else .isFalse (fun hc => by injection hc with h2; exact h h2)

/-- The argument-validation gate of the quantize CLI: both directories
exist and every supplied numeric flag passes its validator.  Every check
here happens before any model or dataset work. -/
def argsValid (inv : QuantizeInvocation) : Bool :=
  inv.modelDirExists && inv.datasetDirExists &&
    inv.maxTrials.all validMaxTrials && inv.timeoutArg.all validTimeout &&
    inv.accuracyCriterion.all validAccuracyCriterion

/-- A concrete quantize invocation mirroring the fixture of
`test_quantize` (test_quantize_cli.py lines 50-73): model directory
`tmp/efficientnet_b0/3` containing `saved_model.pb`, a dataset directory,
an empty output tree, no config supplied, all numeric flags omitted. -/
def tfSampleInv : QuantizeInvocation :=
  ⟨["tmp", "efficientnet_b0", "3"], ["saved_model.pb"], true, "tmp/data", true,
   "tmp/output", none, none, none, none, [], [("efficientnet_b0", .tensorflow)]⟩

/-! ## Lemmas about `pySplit` -/

theorem pySplitF_congr (h : Char) (t : List Char) :
    ∀ (fuel fuel' : Nat) (cs : List Char), cs.length ≤ fuel → cs.length ≤ fuel' →
      pySplitF h t fuel cs = pySplitF h t fuel' cs := by
  intro fuel
  induction fuel with
  | zero =>
    intro fuel' cs hle _
    have : cs = [] := List.length_eq_zero.mp (Nat.le_zero.mp hle)
    subst this
    cases fuel' <;> rfl
  | succ f ih =>
    intro fuel' cs hle hle'
    cases cs with
    | nil => cases fuel' <;> rfl
    | cons c cs =>
      cases fuel' with
      | zero => exact absurd hle' (by simp)
      | succ f' =>
        simp only [pySplitF]
        by_cases hp : (h :: t).isPrefixOf (c :: cs) = true
        · rw [if_pos hp, if_pos hp]
          have hdl : ((c :: cs).drop (t.length + 1)).length ≤ f := by
            simp only [List.length_drop, List.length_cons]
            simp only [List.length_cons] at hle
            omega
          have hdl' : ((c :: cs).drop (t.length + 1)).length ≤ f' := by
            simp only [List.length_drop, List.length_cons]
            simp only [List.length_cons] at hle'
            omega
          rw [ih f' _ hdl hdl']
        · rw [if_neg hp, if_neg hp]
          have hl : cs.length ≤ f := by simp only [List.length_cons] at hle; omega
          have hl' : cs.length ≤ f' := by simp only [List.length_cons] at hle'; omega
          rw [ih f' cs hl hl']

theorem pySplit_nil (h : Char) (t : List Char) : pySplit h t [] = [[]] := rfl

theorem pySplit_cons_pos (h : Char) (t : List Char) (c : Char) (cs : List Char)
    (hp : (h :: t).isPrefixOf (c :: cs) = true) :
    pySplit h t (c :: cs) = [] :: pySplit h t ((c :: cs).drop (t.length + 1)) := by
  unfold pySplit
  simp only [List.length_cons, pySplitF]
  rw [if_pos hp]
  congr 1
  exact pySplitF_congr h t cs.length _ _
    (by simp only [List.length_drop, List.length_cons]; omega) (Nat.le_refl _)

theorem pySplit_cons_neg (h : Char) (t : List Char) (c : Char) (cs : List Char)
    (hp : ¬ (h :: t).isPrefixOf (c :: cs) = true) :
    pySplit h t (c :: cs) =
      (match pySplit h t cs with
       | [] => [[c]]
       | p :: ps => (c :: p) :: ps) := by
  unfold pySplit
  simp only [List.length_cons, pySplitF]
  rw [if_neg hp]

theorem isPrefixOf_cons_false (h c : Char) (t cs : List Char) (hne : c ≠ h) :
    (h :: t).isPrefixOf (c :: cs) = false := by
  simp only [List.isPrefixOf, Bool.and_eq_false_iff]
  left
  simp [beq_eq_false_iff_ne]
  exact fun hh => hne hh.symm

/-- A string without any occurrence of the separator's first character is
returned whole by `pySplit`. -/
theorem pySplit_no_sep (h : Char) (t : List Char) :
    ∀ cs : List Char, h ∉ cs → pySplit h t cs = [cs] := by
  intro cs
  induction cs with
  | nil => intro _; rfl
  | cons c cs ih =>
    intro hmem
    have hch : c ≠ h := fun hc => hmem (hc ▸ List.mem_cons_self c cs)
    have hcs : h ∉ cs := fun hc => hmem (List.mem_cons_of_mem c hc)
    rw [pySplit_cons_neg h t c cs (by simp [isPrefixOf_cons_false h c t cs hch])]
    rw [ih hcs]

theorem isPrefixOf_append_self (x y : List Char) : x.isPrefixOf (x ++ y) = true := by
  rw [List.isPrefixOf_iff_prefix]
  exact List.prefix_append x y

/-- Splitting `a ++ sep ++ d` where the separator's leading character occurs
in neither `a`, the separator's tail, nor `d`, yields exactly `[a, d]`. -/
theorem pySplit_boundary (h : Char) (t : List Char) :
    ∀ a d : List Char, h ∉ a → h ∉ t → h ∉ d →
      pySplit h t (a ++ (h :: t) ++ d) = [a, d] := by
  intro a
  induction a with
  | nil =>
    intro d _ ht hd
    have hpre : (h :: t).isPrefixOf (([] : List Char) ++ (h :: t) ++ d) = true := by
      simp only [List.nil_append, List.cons_append]
      exact isPrefixOf_append_self (h :: t) d
    simp only [List.nil_append] at hpre ⊢
    have : (h :: t) ++ d = h :: (t ++ d) := by simp
    rw [this] at hpre ⊢
    rw [pySplit_cons_pos h t h (t ++ d) hpre]
    have hdrop : (h :: (t ++ d)).drop (t.length + 1) = d := by
      simp only [List.drop_succ_cons]
      exact List.drop_left t d
    rw [hdrop, pySplit_no_sep h t d hd]
  | cons c a ih =>
    intro d hca ht hd
    have hch : c ≠ h := fun hc => hca (hc ▸ List.mem_cons_self c a)
    have hha : h ∉ a := fun hc => hca (List.mem_cons_of_mem c hc)
    have : (c :: a) ++ (h :: t) ++ d = c :: (a ++ (h :: t) ++ d) := by simp
    rw [this]
    rw [pySplit_cons_neg h t c _
      (by simp [isPrefixOf_cons_false h c t _ hch])]
    rw [ih d hha ht hd]

/-- Every character of `cs` is either the (single-character) separator or a
character of one of the parts `pySplit` returns. -/
theorem mem_pySplit_single (sep : Char) :
    ∀ cs : List Char, ∀ c ∈ cs, c = sep ∨ ∃ p ∈ pySplit sep [] cs, c ∈ p := by
  intro cs
  induction cs with
  | nil => intro c hc; cases hc
  | cons x cs ih =>
    intro c hc
    by_cases hx : x = sep
    · rcases List.mem_cons.mp hc with hcx | hcs
      · left; rw [hcx, hx]
      · rcases ih c hcs with hsep | ⟨p, hp, hcp⟩
        · left; exact hsep
        · right
          have hpre : (sep :: ([] : List Char)).isPrefixOf (x :: cs) = true := by
            subst hx
            simp [List.isPrefixOf]
          rw [pySplit_cons_pos sep [] x cs hpre]
          exact ⟨p, by simpa using List.mem_cons_of_mem ([] : List Char) hp, hcp⟩
    · have hnp : ¬ (sep :: ([] : List Char)).isPrefixOf (x :: cs) = true := by
        simp [isPrefixOf_cons_false sep x [] cs hx]
      rw [pySplit_cons_neg sep [] x cs hnp]
      rcases List.mem_cons.mp hc with hcx | hcs
      · subst hcx
        right
        cases hsplit : pySplit sep [] cs with
        | nil => exact ⟨[c], by simp, by simp⟩
        | cons p ps => exact ⟨c :: p, by simp, by simp⟩
      · rcases ih c hcs with hsep | ⟨p, hp, hcp⟩
        · left; exact hsep
        · right
          cases hsplit : pySplit sep [] cs with
          | nil => rw [hsplit] at hp; cases hp
          | cons q ps =>
            rw [hsplit] at hp
            rcases List.mem_cons.mp hp with hpq | hpps
            · exact ⟨x :: q, by simp, List.mem_cons_of_mem x (hpq ▸ hcp)⟩
            · exact ⟨p, List.mem_cons_of_mem _ hpps, hcp⟩

/-! ## Decimal rendering is injective -/

theorem digitChar_decode (d : Nat) (hd : d < 10) :
    (Nat.digitChar d).toNat - '0'.toNat = d := by
  interval_cases d <;> decide

theorem ofDigitsRev_natDigitsRev :
    ∀ fuel n : Nat, n < 10 ^ fuel → ofDigitsRev (natDigitsRev fuel n) = n := by
  intro fuel
  induction fuel with
  | zero =>
    intro n hn
    simp only [pow_zero, Nat.lt_one_iff] at hn
    subst hn
    rfl
  | succ f ih =>
    intro n hn
    by_cases hsmall : n < 10
    · simp only [natDigitsRev, if_pos hsmall, ofDigitsRev]
      rw [digitChar_decode n hsmall]
      omega
    · simp only [natDigitsRev, if_neg hsmall, ofDigitsRev]
      have hmod : n % 10 < 10 := Nat.mod_lt n (by norm_num)
      rw [digitChar_decode (n % 10) hmod]
      have hdiv : n / 10 < 10 ^ f := by
        rw [Nat.div_lt_iff_lt_mul (by norm_num : 0 < 10)]
        calc n < 10 ^ (f + 1) := hn
        _ = 10 ^ f * 10 := by ring
      rw [ih (n / 10) hdiv]
      exact Nat.mod_add_div n 10

theorem natToChars_inj (m n : Nat) (h : natToChars m = natToChars n) : m = n := by
  have hrev : natDigitsRev (m + 1) m = natDigitsRev (n + 1) n := by
    have := congrArg List.reverse h
    simpa [natToChars] using this
  have hm : m < 10 ^ (m + 1) := by
    calc m < 10 ^ m := Nat.lt_pow_self (by norm_num) m
    _ ≤ 10 ^ (m + 1) := Nat.pow_le_pow_right (by norm_num) (Nat.le_succ m)
  have hn : n < 10 ^ (n + 1) := by
    calc n < 10 ^ n := Nat.lt_pow_self (by norm_num) n
    _ ≤ 10 ^ (n + 1) := Nat.pow_le_pow_right (by norm_num) (Nat.le_succ n)
  calc m = ofDigitsRev (natDigitsRev (m + 1) m) := (ofDigitsRev_natDigitsRev (m + 1) m hm).symm
  _ = ofDigitsRev (natDigitsRev (n + 1) n) := by rw [hrev]
  _ = n := ofDigitsRev_natDigitsRev (n + 1) n hn

theorem natToStr_inj (m n : Nat) (h : natToStr m = natToStr n) : m = n :=
  natToChars_inj m n (by injection h)

/-- The next version's name is never among the version names rendered so
far. -/
theorem natToStr_not_mem_range (k : Nat) :
    natToStr (k + 1) ∉ (List.range' 1 k).map natToStr := by
  intro hmem
  rcases List.mem_map.mp hmem with ⟨v, hv, heq⟩
  have hb := List.mem_range'_1.mp hv
  have := natToStr_inj v (k + 1) heq
  omega

/-! ## Character facts about the pattern languages -/

theorem isDigitChar_of_range (c lo hi : Char) (hlo : '0' ≤ lo) (hhi : hi ≤ '9')
    (h1 : lo ≤ c) (h2 : c ≤ hi) : isDigitChar c = true := by
  simp only [isDigitChar, Bool.and_eq_true, decide_eq_true_eq]
  exact ⟨le_trans hlo h1, le_trans h2 hhi⟩

theorem isOctet_digits (p : List Char) (hp : isOctet p = true) :
    ∀ c ∈ p, isDigitChar c = true := by
  intro c hc
  rcases p with _ | ⟨a, _ | ⟨b, _ | ⟨x, _ | ⟨d, rest⟩⟩⟩⟩
  · cases hc
  · simp only [isOctet] at hp
    rcases List.mem_singleton.mp hc with rfl
    exact hp
  · simp only [isOctet, Bool.and_eq_true, decide_eq_true_eq, and_assoc] at hp
    obtain ⟨h1, h2, h3⟩ := hp
    rcases List.mem_cons.mp hc with rfl | hc2
    · exact isDigitChar_of_range c '1' '9' (by decide) (by decide) h1 h2
    rcases List.mem_singleton.mp hc2 with rfl
    exact h3
  · simp only [isOctet, Bool.or_eq_true, Bool.and_eq_true, decide_eq_true_eq,
      and_assoc] at hp
    have hdigits : isDigitChar a = true ∧ isDigitChar b = true ∧ isDigitChar x = true := by
      rcases hp with (⟨ha, hb, hx1, hx2⟩ | ⟨ha, hb1, hb2, hx⟩) | ⟨ha, hb, hx⟩
      · exact ⟨by rw [ha]; decide, by rw [hb]; decide,
          isDigitChar_of_range x '0' '5' (by decide) (by decide) hx1 hx2⟩
      · exact ⟨by rw [ha]; decide,
          isDigitChar_of_range b '0' '4' (by decide) (by decide) hb1 hb2, hx⟩
      · exact ⟨by rw [ha]; decide, hb, hx⟩
    rcases List.mem_cons.mp hc with rfl | hc2
    · exact hdigits.1
    rcases List.mem_cons.mp hc2 with rfl | hc3
    · exact hdigits.2.1
    rcases List.mem_singleton.mp hc3 with rfl
    exact hdigits.2.2
  · simp [isOctet] at hp

theorem isLabel_chars (p : List Char) (hp : isLabel p = true) :
    ∀ c ∈ p, (isAlnum c || c = '-') = true := by
  intro c hc
  rcases p with _ | ⟨a, rest⟩
  · cases hc
  · simp only [isLabel, Bool.and_eq_true] at hp
    rcases List.mem_cons.mp hc with rfl | hc2
    · simp [hp.1.1]
    · exact List.all_eq_true.mp hp.1.2 c hc2

theorem isIP_parts (cs : List Char) (h : isIP cs = true) :
    ∀ p ∈ pySplit '.' [] cs, isOctet p = true := by
  intro p hp
  unfold isIP at h
  rcases hsplit : pySplit '.' [] cs with _ | ⟨a, _ | ⟨b, _ | ⟨x, _ | ⟨d, _ | ⟨e, rest⟩⟩⟩⟩⟩ <;>
    rw [hsplit] at h hp <;> simp at h
  obtain ⟨⟨⟨ha, hb⟩, hx⟩, hd⟩ := h
  rcases List.mem_cons.mp hp with rfl | hp2
  · exact ha
  rcases List.mem_cons.mp hp2 with rfl | hp3
  · exact hb
  rcases List.mem_cons.mp hp3 with rfl | hp4
  · exact hx
  rcases List.mem_singleton.mp hp4 with rfl
  exact hd

theorem isIP_chars (cs : List Char) (h : isIP cs = true) :
    ∀ c ∈ cs, c = '.' ∨ isDigitChar c = true := by
  intro c hc
  rcases mem_pySplit_single '.' cs c hc with hdot | ⟨p, hp, hcp⟩
  · exact Or.inl hdot
  · exact Or.inr (isOctet_digits p (isIP_parts cs h p hp) c hcp)

theorem isHostname_chars (cs : List Char) (h : isHostname cs = true) :
    ∀ c ∈ cs, c = '.' ∨ (isAlnum c || c = '-') = true := by
  intro c hc
  rcases mem_pySplit_single '.' cs c hc with hdot | ⟨p, hp, hcp⟩
  · exact Or.inl hdot
  · have hall := List.all_eq_true.mp h p hp
    exact Or.inr (isLabel_chars p hall c hcp)

theorem not_mem_of_isIP (a : List Char) (c : Char) (h : isIP a = true)
    (h1 : c ≠ '.') (h2 : isDigitChar c = false) : c ∉ a := by
  intro hc
  rcases isIP_chars a h c hc with hdot | hdig
  · exact h1 hdot
  · rw [hdig] at h2; cases h2

theorem not_mem_of_isHostname (a : List Char) (c : Char) (h : isHostname a = true)
    (h1 : c ≠ '.') (h2 : (isAlnum c || c = '-') = false) : c ∉ a := by
  intro hc
  rcases isHostname_chars a h c hc with hdot | hal
  · exact h1 hdot
  · rw [hal] at h2; cases h2

theorem not_mem_of_digits (d : List Char) (c : Char)
    (hd : ∀ x ∈ d, isDigitChar x = true) (hc : isDigitChar c = false) : c ∉ d := by
  intro hmem
  rw [hd c hmem] at hc
  cases hc

theorem isDigits12_digits (d : List Char) (h : isDigits12 d = true) :
    ∀ x ∈ d, isDigitChar x = true := by
  simp only [isDigits12, Bool.and_eq_true, List.all_eq_true] at h
  exact h.2

/-! ## Facts about the six matchers -/

theorem not_mem_append3 (c : Char) (a b d : List Char)
    (h1 : c ∉ a) (h2 : c ∉ b) (h3 : c ∉ d) : c ∉ a ++ b ++ d := by
  intro hm
  simp only [List.mem_append] at hm
  tauto

theorem matchesWithSuffix_no_sep (pre : List Char → Bool) (h : Char) (t cs : List Char)
    (hmem : h ∉ cs) : matchesWithSuffix pre h t cs = false := by
  unfold matchesWithSuffix
  rw [pySplit_no_sep h t cs hmem]

theorem matchesWithSuffix_boundary (pre : List Char → Bool) (h : Char) (t a d : List Char)
    (ha : h ∉ a) (ht : h ∉ t) (hd : h ∉ d) :
    matchesWithSuffix pre h t (a ++ (h :: t) ++ d) = (pre a && isDigits12 d) := by
  unfold matchesWithSuffix
  rw [pySplit_boundary h t a d ha ht hd]

theorem part0_boundary (h : Char) (t a d : List Char)
    (ha : h ∉ a) (ht : h ∉ t) (hd : h ∉ d) :
    part0 h t (a ++ (h :: t) ++ d) = a := by
  unfold part0
  rw [pySplit_boundary h t a d ha ht hd]
  rfl

theorem part1_boundary (h : Char) (t a d : List Char)
    (ha : h ∉ a) (ht : h ∉ t) (hd : h ∉ d) :
    part1 h t (a ++ (h :: t) ++ d) = d := by
  unfold part1
  rw [pySplit_boundary h t a d ha ht hd]
  rfl

theorem isIP_false_of_space (cs : List Char) (hmem : ' ' ∈ cs) : isIP cs = false := by
  cases hb : isIP cs with
  | false => rfl
  | true => exact absurd hmem (not_mem_of_isIP cs ' ' hb (by decide) (by decide))

theorem isIP_false_of_colon (cs : List Char) (hmem : ':' ∈ cs) : isIP cs = false := by
  cases hb : isIP cs with
  | false => rfl
  | true => exact absurd hmem (not_mem_of_isIP cs ':' hb (by decide) (by decide))

theorem isHostname_false_of_space (cs : List Char) (hmem : ' ' ∈ cs) :
    isHostname cs = false := by
  cases hb : isHostname cs with
  | false => rfl
  | true => exact absurd hmem (not_mem_of_isHostname cs ' ' hb (by decide) (by decide))

theorem isHostname_false_of_colon (cs : List Char) (hmem : ':' ∈ cs) :
    isHostname cs = false := by
  cases hb : isHostname cs with
  | false => rfl
  | true => exact absurd hmem (not_mem_of_isHostname cs ':' hb (by decide) (by decide))

theorem space_not_mem_of_isIP (a : List Char) (h : isIP a = true) : ' ' ∉ a :=
  not_mem_of_isIP a ' ' h (by decide) (by decide)

theorem colon_not_mem_of_isIP (a : List Char) (h : isIP a = true) : ':' ∉ a :=
  not_mem_of_isIP a ':' h (by decide) (by decide)

theorem space_not_mem_of_isHostname (a : List Char) (h : isHostname a = true) : ' ' ∉ a :=
  not_mem_of_isHostname a ' ' h (by decide) (by decide)

theorem colon_not_mem_of_isHostname (a : List Char) (h : isHostname a = true) : ':' ∉ a :=
  not_mem_of_isHostname a ':' h (by decide) (by decide)

theorem space_not_mem_digits (d : List Char) (hd : ∀ x ∈ d, isDigitChar x = true) :
    ' ' ∉ d :=
  not_mem_of_digits d ' ' hd (by decide)

theorem colon_not_mem_digits (d : List Char) (hd : ∀ x ∈ d, isDigitChar x = true) :
    ':' ∉ d :=
  not_mem_of_digits d ':' hd (by decide)

/-! ## First-match classification of well-formed lines -/

theorem matchLine_ip (a : List Char) (h : isIP a = true) :
    matchLine a = some .validIp := by
  unfold matchLine
  rw [h]
  simp

theorem matchLine_ipSlot (a d : List Char) (ha : isIP a = true)
    (hd : isDigits12 d = true) :
    matchLine (a ++ (' ' :: slotsSepTail) ++ d) = some .validIpWithSlot := by
  have hdd := isDigits12_digits d hd
  have h1 : isIP (a ++ (' ' :: slotsSepTail) ++ d) = false :=
    isIP_false_of_space _ (by simp)
  have h2 : matchesWithSuffix isIP ' ' slotsSepTail (a ++ (' ' :: slotsSepTail) ++ d)
      = true := by
    rw [matchesWithSuffix_boundary isIP ' ' slotsSepTail a d
      (space_not_mem_of_isIP a ha) (by decide) (space_not_mem_digits d hdd), ha, hd]
    rfl
  unfold matchLine
  rw [h1, h2]
  simp

theorem matchLine_ipColon (a d : List Char) (ha : isIP a = true)
    (hd : isDigits12 d = true) :
    matchLine (a ++ [':'] ++ d) = some .validIpWithColon := by
  have hdd := isDigits12_digits d hd
  have h1 : isIP (a ++ [':'] ++ d) = false := isIP_false_of_colon _ (by simp)
  have h2 : matchesWithSuffix isIP ' ' slotsSepTail (a ++ [':'] ++ d) = false :=
    matchesWithSuffix_no_sep isIP ' ' slotsSepTail _
      (not_mem_append3 ' ' a [':'] d (space_not_mem_of_isIP a ha) (by decide)
        (space_not_mem_digits d hdd))
  have h3 : matchesWithSuffix isIP ':' [] (a ++ [':'] ++ d) = true := by
    rw [show a ++ [':'] ++ d = a ++ (':' :: ([] : List Char)) ++ d from rfl]
    rw [matchesWithSuffix_boundary isIP ':' [] a d
      (colon_not_mem_of_isIP a ha) (by decide) (colon_not_mem_digits d hdd), ha, hd]
    rfl
  unfold matchLine
  rw [h1, h2, h3]
  simp

theorem matchLine_host (a : List Char) (hh : isHostname a = true)
    (hip : isIP a = false) :
    matchLine a = some .validHostname := by
  have h2 : matchesWithSuffix isIP ' ' slotsSepTail a = false :=
    matchesWithSuffix_no_sep isIP ' ' slotsSepTail a (space_not_mem_of_isHostname a hh)
  have h3 : matchesWithSuffix isIP ':' [] a = false :=
    matchesWithSuffix_no_sep isIP ':' [] a (colon_not_mem_of_isHostname a hh)
  unfold matchLine
  rw [hip, h2, h3, hh]
  simp

theorem matchLine_hostSlot (a d : List Char) (hh : isHostname a = true)
    (hip : isIP a = false) (hd : isDigits12 d = true) :
    matchLine (a ++ (' ' :: slotsSepTail) ++ d) = some .validHostnameWithSlot := by
  have hdd := isDigits12_digits d hd
  have hsp : ' ' ∉ a := space_not_mem_of_isHostname a hh
  have hco : ':' ∉ a := colon_not_mem_of_isHostname a hh
  have h1 : isIP (a ++ (' ' :: slotsSepTail) ++ d) = false :=
    isIP_false_of_space _ (by simp)
  have h2 : matchesWithSuffix isIP ' ' slotsSepTail (a ++ (' ' :: slotsSepTail) ++ d)
      = false := by
    rw [matchesWithSuffix_boundary isIP ' ' slotsSepTail a d hsp (by decide)
      (space_not_mem_digits d hdd), hip]
    rfl
  have h3 : matchesWithSuffix isIP ':' [] (a ++ (' ' :: slotsSepTail) ++ d) = false :=
    matchesWithSuffix_no_sep isIP ':' [] _
      (not_mem_append3 ':' a (' ' :: slotsSepTail) d hco (by decide)
        (colon_not_mem_digits d hdd))
  have h4 : isHostname (a ++ (' ' :: slotsSepTail) ++ d) = false :=
    isHostname_false_of_space _ (by simp)
  have h5 : matchesWithSuffix isHostname ' ' slotsSepTail
      (a ++ (' ' :: slotsSepTail) ++ d) = true := by
    rw [matchesWithSuffix_boundary isHostname ' ' slotsSepTail a d hsp (by decide)
      (space_not_mem_digits d hdd), hh, hd]
    rfl
  unfold matchLine
  rw [h1, h2, h3, h4, h5]
  simp

theorem matchLine_hostColon (a d : List Char) (hh : isHostname a = true)
    (hip : isIP a = false) (hd : isDigits12 d = true) :
    matchLine (a ++ [':'] ++ d) = some .validHostnameWithColon := by
  have hdd := isDigits12_digits d hd
  have hsp : ' ' ∉ a := space_not_mem_of_isHostname a hh
  have hco : ':' ∉ a := colon_not_mem_of_isHostname a hh
  have h1 : isIP (a ++ [':'] ++ d) = false := isIP_false_of_colon _ (by simp)
  have h2 : matchesWithSuffix isIP ' ' slotsSepTail (a ++ [':'] ++ d) = false :=
    matchesWithSuffix_no_sep isIP ' ' slotsSepTail _
      (not_mem_append3 ' ' a [':'] d hsp (by decide) (space_not_mem_digits d hdd))
  have h3 : matchesWithSuffix isIP ':' [] (a ++ [':'] ++ d) = false := by
    rw [show a ++ [':'] ++ d = a ++ (':' :: ([] : List Char)) ++ d from rfl]
    rw [matchesWithSuffix_boundary isIP ':' [] a d hco (by decide)
      (colon_not_mem_digits d hdd), hip]
    rfl
  have h4 : isHostname (a ++ [':'] ++ d) = false :=
    isHostname_false_of_colon _ (by simp)
  have h5 : matchesWithSuffix isHostname ' ' slotsSepTail (a ++ [':'] ++ d) = false :=
    matchesWithSuffix_no_sep isHostname ' ' slotsSepTail _
      (not_mem_append3 ' ' a [':'] d hsp (by decide) (space_not_mem_digits d hdd))
  have h6 : matchesWithSuffix isHostname ':' [] (a ++ [':'] ++ d) = true := by
    rw [show a ++ [':'] ++ d = a ++ (':' :: ([] : List Char)) ++ d from rfl]
    rw [matchesWithSuffix_boundary isHostname ':' [] a d hco (by decide)
      (colon_not_mem_digits d hdd), hh, hd]
    rfl
  unfold matchLine
  rw [h1, h2, h3, h4, h5, h6]
  simp

/-! ## Facts about `matchAll` and `parseHostfile` -/

theorem matchAll_cons_some (l : List Char) (ls : List (List Char)) (k : MatchKind)
    (hk : matchLine l = some k) :
    matchAll (l :: ls) =
      (match matchAll ls with
       | .error e => .error e
       | .ok ks => .ok (k :: ks)) := by
  rw [show matchAll (l :: ls) =
      (match matchLine l with
       | none => Except.error l
       | some kk =>
         match matchAll ls with
         | .error e => .error e
         | .ok ks => .ok (kk :: ks)) from rfl, hk]

theorem matchAll_first_error (pre : List (List Char)) (l : List Char)
    (post : List (List Char)) (hpre : ∀ x ∈ pre, (matchLine x).isSome = true)
    (hl : matchLine l = none) :
    matchAll (pre ++ l :: post) = .error l := by
  induction pre with
  | nil =>
    simp only [List.nil_append]
    unfold matchAll
    rw [hl]
  | cons x pre ih =>
    have hx := hpre x (List.mem_cons_self x pre)
    rcases Option.isSome_iff_exists.mp hx with ⟨k, hk⟩
    have hrest := ih fun y hy => hpre y (List.mem_cons_of_mem x hy)
    rw [List.cons_append, matchAll_cons_some x _ k hk, hrest]

theorem parseHostfile_first_error (resolve : List Char → List Char)
    (pre : List (List Char)) (l : List Char) (post : List (List Char))
    (hpre : ∀ x ∈ pre, (matchLine x).isSome = true) (hl : matchLine l = none) :
    parseHostfile resolve (pre ++ l :: post) = .error (invalidLineMsg l) := by
  unfold parseHostfile
  rw [matchAll_first_error pre l post hpre hl]

theorem matchAll_ok_length : ∀ (ls : List (List Char)) (ks : List MatchKind),
    matchAll ls = .ok ks → ks.length = ls.length := by
  intro ls
  induction ls with
  | nil =>
    intro ks h
    unfold matchAll at h
    injection h with h2
    simp [← h2]
  | cons l ls ih =>
    intro ks h
    unfold matchAll at h
    cases hml : matchLine l with
    | none => rw [hml] at h; cases h
    | some k =>
      rw [hml] at h
      cases hrest : matchAll ls with
      | error e => rw [hrest] at h; cases h
      | ok ks2 =>
        rw [hrest] at h
        injection h with h2
        rw [← h2]
        simp [ih ks2 hrest]

theorem parseHostfile_ok_lengths (resolve : List Char → List Char)
    (lines : List (List Char)) (info : HostfileInfo)
    (h : parseHostfile resolve lines = .ok info) :
    info.ip_addresses.length = lines.length ∧ info.slots.length = lines.length := by
  unfold parseHostfile at h
  cases hma : matchAll lines with
  | error e => rw [hma] at h; cases h
  | ok ks =>
    rw [hma] at h
    injection h with h2
    have hk := matchAll_ok_length lines ks hma
    rw [← h2]
    constructor <;> simp [List.length_zip, hk]

theorem parseHostfile_single (resolve : List Char → List Char) (l : List Char)
    (k : MatchKind) (hk : matchLine l = some k) :
    parseHostfile resolve [l] =
      .ok ⟨[(normalizeLine resolve l k).1], [(normalizeLine resolve l k).2]⟩ := by
  unfold parseHostfile matchAll
  rw [hk]
  rfl

/-- C5: a hostfile line matching none of the six accepted syntactic forms
makes the whole parse fail with a `ValueError` quoting the first offending
line verbatim; no normalized result is returned. -/
theorem hostfile_parse_fails_on_invalid_line (resolve : List Char → List Char)
    (pre : List (List Char)) (l : List Char) (post : List (List Char))
    (hpre : ∀ x ∈ pre, (matchLine x).isSome = true) (hl : matchLine l = none) :
    parseHostfile resolve (pre ++ l :: post) = .error (invalidLineMsg l) :=
  parseHostfile_first_error resolve pre l post hpre hl

theorem hostfile_parse_fails_on_invalid_line_witness :
    parseHostfile (fun s => s)
        ["127.0.0.1".toList, "bad line!".toList, "1.2.3.4".toList] =
      .error (invalidLineMsg "bad line!".toList) :=
  hostfile_parse_fails_on_invalid_line (fun s => s) ["127.0.0.1".toList]
    "bad line!".toList ["1.2.3.4".toList] (by decide) (by decide)

/-- C10: in the slot-bearing forms `A slots=N` and `A:N`, the accepted
syntax limits the slot count to at most two digits: a slot count of three
or more digits matches none of the six patterns and fails the whole parse
with a `ValueError` quoting the line. -/
theorem hostfile_rejects_slot_count_over_two_digits (resolve : List Char → List Char)
    (a n : List Char) (ha : isIP a = true ∨ isHostname a = true)
    (hn : ∀ c ∈ n, isDigitChar c = true) (h3 : 3 ≤ n.length) :
    matchLine (a ++ (' ' :: slotsSepTail) ++ n) = none ∧
    matchLine (a ++ [':'] ++ n) = none ∧
    parseHostfile resolve [a ++ (' ' :: slotsSepTail) ++ n] =
      .error (invalidLineMsg (a ++ (' ' :: slotsSepTail) ++ n)) ∧
    parseHostfile resolve [a ++ [':'] ++ n] =
      .error (invalidLineMsg (a ++ [':'] ++ n)) := by
  have hsp : ' ' ∉ a := by
    rcases ha with h | h
    exacts [space_not_mem_of_isIP a h, space_not_mem_of_isHostname a h]
  have hco : ':' ∉ a := by
    rcases ha with h | h
    exacts [colon_not_mem_of_isIP a h, colon_not_mem_of_isHostname a h]
  have hd12 : isDigits12 n = false := by
    have hlen : (n.length = 1 || n.length = 2) = false := by
      simp only [Bool.or_eq_false_iff, decide_eq_false_iff_not]
      omega
    simp [isDigits12, hlen]
  have m1 : matchLine (a ++ (' ' :: slotsSepTail) ++ n) = none := by
    have h1 : isIP (a ++ (' ' :: slotsSepTail) ++ n) = false :=
      isIP_false_of_space _ (by simp)
    have h2 : matchesWithSuffix isIP ' ' slotsSepTail (a ++ (' ' :: slotsSepTail) ++ n)
        = false := by
      rw [matchesWithSuffix_boundary isIP ' ' slotsSepTail a n hsp (by decide)
        (space_not_mem_digits n hn), hd12]
      simp
    have h3b : matchesWithSuffix isIP ':' [] (a ++ (' ' :: slotsSepTail) ++ n) = false :=
      matchesWithSuffix_no_sep isIP ':' [] _
        (not_mem_append3 ':' a (' ' :: slotsSepTail) n hco (by decide)
          (colon_not_mem_digits n hn))
    have h4 : isHostname (a ++ (' ' :: slotsSepTail) ++ n) = false :=
      isHostname_false_of_space _ (by simp)
    have h5 : matchesWithSuffix isHostname ' ' slotsSepTail
        (a ++ (' ' :: slotsSepTail) ++ n) = false := by
      rw [matchesWithSuffix_boundary isHostname ' ' slotsSepTail a n hsp (by decide)
        (space_not_mem_digits n hn), hd12]
      simp
    have h6 : matchesWithSuffix isHostname ':' [] (a ++ (' ' :: slotsSepTail) ++ n)
        = false :=
      matchesWithSuffix_no_sep isHostname ':' [] _
        (not_mem_append3 ':' a (' ' :: slotsSepTail) n hco (by decide)
          (colon_not_mem_digits n hn))
    unfold matchLine
    rw [h1, h2, h3b, h4, h5, h6]
    simp
  have m2 : matchLine (a ++ [':'] ++ n) = none := by
    have h1 : isIP (a ++ [':'] ++ n) = false := isIP_false_of_colon _ (by simp)
    have h2 : matchesWithSuffix isIP ' ' slotsSepTail (a ++ [':'] ++ n) = false :=
      matchesWithSuffix_no_sep isIP ' ' slotsSepTail _
        (not_mem_append3 ' ' a [':'] n hsp (by decide) (space_not_mem_digits n hn))
    have h3b : matchesWithSuffix isIP ':' [] (a ++ [':'] ++ n) = false := by
      rw [show a ++ [':'] ++ n = a ++ (':' :: ([] : List Char)) ++ n from rfl]
      rw [matchesWithSuffix_boundary isIP ':' [] a n hco (by decide)
        (colon_not_mem_digits n hn), hd12]
      simp
    have h4 : isHostname (a ++ [':'] ++ n) = false :=
      isHostname_false_of_colon _ (by simp)
    have h5 : matchesWithSuffix isHostname ' ' slotsSepTail (a ++ [':'] ++ n) = false :=
      matchesWithSuffix_no_sep isHostname ' ' slotsSepTail _
        (not_mem_append3 ' ' a [':'] n hsp (by decide) (space_not_mem_digits n hn))
    have h6 : matchesWithSuffix isHostname ':' [] (a ++ [':'] ++ n) = false := by
      rw [show a ++ [':'] ++ n = a ++ (':' :: ([] : List Char)) ++ n from rfl]
      rw [matchesWithSuffix_boundary isHostname ':' [] a n hco (by decide)
        (colon_not_mem_digits n hn), hd12]
      simp
    unfold matchLine
    rw [h1, h2, h3b, h4, h5, h6]
    simp
  refine ⟨m1, m2, ?_, ?_⟩
  · exact parseHostfile_first_error resolve [] _ [] (by intro x hx; cases hx) m1
  · exact parseHostfile_first_error resolve [] _ [] (by intro x hx; cases hx) m2

theorem hostfile_rejects_slot_count_over_two_digits_witness :
    matchLine ("127.0.0.1".toList ++ (' ' :: slotsSepTail) ++ "123".toList) = none ∧
    matchLine ("127.0.0.1".toList ++ [':'] ++ "123".toList) = none ∧
    parseHostfile (fun s => s) ["127.0.0.1".toList ++ (' ' :: slotsSepTail) ++ "123".toList] =
      .error (invalidLineMsg ("127.0.0.1".toList ++ (' ' :: slotsSepTail) ++ "123".toList)) ∧
    parseHostfile (fun s => s) ["127.0.0.1".toList ++ [':'] ++ "123".toList] =
      .error (invalidLineMsg ("127.0.0.1".toList ++ [':'] ++ "123".toList)) :=
  hostfile_rejects_slot_count_over_two_digits (fun s => s) "127.0.0.1".toList
    "123".toList (Or.inl (by decide)) (by decide) (by decide)

/-- C6 counterexample: on the slot-bearing line `127.0.0.1 slots=2` the
parser stores the slot as the raw digit *substring* (a Python string,
`line.split(' slots=')[1]`), not as an integer: the returned slot value is
`SlotVal.str "2"`, which differs from the integer slot value
`SlotVal.int 2` the claim requires (only bare lines get integer slots). -/
theorem hostfile_slot_is_string_not_int :
    parseHostfile (fun s => s) ["127.0.0.1 slots=2".toList] =
      .ok ⟨["127.0.0.1".toList], [SlotVal.str ['2']]⟩ ∧
    SlotVal.str ['2'] ≠ SlotVal.int 2 := by
  constructor
  · rfl
  · decide

/-- C6 (amended): for every hostfile whose lines all match one of the six
accepted forms, parsing returns exactly one normalized entry per line in
file order; the entry's address is the line's address part (hostnames that
are not also IP literals are resolved through the resolver at parse time),
and the slot value is the integer 0 for bare lines and the line's one- or
two-digit slot substring (as a string, not an integer) for slot-bearing
lines. -/
theorem hostfile_roundtrip_normalization (resolve : List Char → List Char)
    (a d : List Char) (lines : List (List Char)) (info : HostfileInfo) :
    (isIP a = true → parseHostfile resolve [a] = .ok ⟨[a], [.int 0]⟩) ∧
    (isIP a = true → isDigits12 d = true →
      parseHostfile resolve [a ++ (' ' :: slotsSepTail) ++ d] = .ok ⟨[a], [.str d]⟩) ∧
    (isIP a = true → isDigits12 d = true →
      parseHostfile resolve [a ++ [':'] ++ d] = .ok ⟨[a], [.str d]⟩) ∧
    (isHostname a = true → isIP a = false →
      parseHostfile resolve [a] = .ok ⟨[resolve a], [.int 0]⟩) ∧
    (isHostname a = true → isIP a = false → isDigits12 d = true →
      parseHostfile resolve [a ++ (' ' :: slotsSepTail) ++ d]
        = .ok ⟨[resolve a], [.str d]⟩) ∧
    (isHostname a = true → isIP a = false → isDigits12 d = true →
      parseHostfile resolve [a ++ [':'] ++ d] = .ok ⟨[resolve a], [.str d]⟩) ∧
    (parseHostfile resolve lines = .ok info →
      info.ip_addresses.length = lines.length ∧ info.slots.length = lines.length) := by
  refine ⟨?_, ?_, ?_, ?_, ?_, ?_, ?_⟩
  · intro ha
    rw [parseHostfile_single resolve a .validIp (matchLine_ip a ha)]
    rfl
  · intro ha hd
    have hdd := isDigits12_digits d hd
    rw [parseHostfile_single resolve _ .validIpWithSlot (matchLine_ipSlot a d ha hd)]
    simp only [normalizeLine]
    rw [part0_boundary ' ' slotsSepTail a d (space_not_mem_of_isIP a ha) (by decide)
      (space_not_mem_digits d hdd)]
    rw [part1_boundary ' ' slotsSepTail a d (space_not_mem_of_isIP a ha) (by decide)
      (space_not_mem_digits d hdd)]
  · intro ha hd
    have hdd := isDigits12_digits d hd
    rw [parseHostfile_single resolve _ .validIpWithColon (matchLine_ipColon a d ha hd)]
    simp only [normalizeLine]
    rw [show a ++ [':'] ++ d = a ++ (':' :: ([] : List Char)) ++ d from rfl]
    rw [part0_boundary ':' [] a d (colon_not_mem_of_isIP a ha) (by decide)
      (colon_not_mem_digits d hdd)]
    rw [part1_boundary ':' [] a d (colon_not_mem_of_isIP a ha) (by decide)
      (colon_not_mem_digits d hdd)]
  · intro hh hip
    rw [parseHostfile_single resolve a .validHostname (matchLine_host a hh hip)]
    rfl
  · intro hh hip hd
    have hdd := isDigits12_digits d hd
    rw [parseHostfile_single resolve _ .validHostnameWithSlot
      (matchLine_hostSlot a d hh hip hd)]
    simp only [normalizeLine]
    rw [part0_boundary ' ' slotsSepTail a d (space_not_mem_of_isHostname a hh)
      (by decide) (space_not_mem_digits d hdd)]
    rw [part1_boundary ' ' slotsSepTail a d (space_not_mem_of_isHostname a hh)
      (by decide) (space_not_mem_digits d hdd)]
  · intro hh hip hd
    have hdd := isDigits12_digits d hd
    rw [parseHostfile_single resolve _ .validHostnameWithColon
      (matchLine_hostColon a d hh hip hd)]
    simp only [normalizeLine]
    rw [show a ++ [':'] ++ d = a ++ (':' :: ([] : List Char)) ++ d from rfl]
    rw [part0_boundary ':' [] a d (colon_not_mem_of_isHostname a hh) (by decide)
      (colon_not_mem_digits d hdd)]
    rw [part1_boundary ':' [] a d (colon_not_mem_of_isHostname a hh) (by decide)
      (colon_not_mem_digits d hdd)]
  · exact parseHostfile_ok_lengths resolve lines info

theorem hostfile_roundtrip_normalization_witness :
    parseHostfile (fun s => s ++ "-resolved".toList)
        ["127.0.0.1".toList ++ (' ' :: slotsSepTail) ++ "2".toList]
      = .ok ⟨["127.0.0.1".toList], [.str "2".toList]⟩ ∧
    parseHostfile (fun s => s ++ "-resolved".toList)
        ["my-host.com".toList ++ [':'] ++ "16".toList]
      = .ok ⟨["my-host.com-resolved".toList], [.str "16".toList]⟩ ∧
    ((⟨["127.0.0.1".toList], [SlotVal.int 0]⟩ : HostfileInfo).ip_addresses.length
        = [("127.0.0.1".toList)].length ∧
      (⟨["127.0.0.1".toList], [SlotVal.int 0]⟩ : HostfileInfo).slots.length
        = [("127.0.0.1".toList)].length) :=
  ⟨(hostfile_roundtrip_normalization (fun s => s ++ "-resolved".toList)
      "127.0.0.1".toList "2".toList [] ⟨[], []⟩).2.1 (by decide) (by decide),
   (hostfile_roundtrip_normalization (fun s => s ++ "-resolved".toList)
      "my-host.com".toList "16".toList [] ⟨[], []⟩).2.2.2.2.2.1 (by decide) (by decide)
      (by decide),
   (hostfile_roundtrip_normalization (fun s => s) "".toList "".toList
      ["127.0.0.1".toList] ⟨["127.0.0.1".toList], [SlotVal.int 0]⟩).2.2.2.2.2.2
      (by rfl)⟩

/-! ## Versioned export directories -/

theorem range'_one_concat (k : Nat) :
    List.range' 1 (k + 1) = List.range' 1 k ++ [k + 1] := by
  have h := @List.range'_concat 1 1 k
  simpa [Nat.add_comm] using h

theorem contains_natToStr_next (k : Nat) :
    ((List.range' 1 k).map natToStr).contains (natToStr (k + 1)) = false := by
  simpa using natToStr_not_mem_range k

theorem exportModel_step (vf : String → String) (out name : String) (k : Nat)
    (hk : 1 ≤ k) :
    exportModel vf out name ⟨true, some ((List.range' 1 k).map natToStr)⟩ =
      .ok (out ++ "/" ++ vf name ++ "/" ++ natToStr (k + 1),
           ⟨true, some ((List.range' 1 (k + 1)).map natToStr)⟩) := by
  have hlen : ((List.range' 1 k).map natToStr).length = k := by simp
  have hver : chooseVersion (some ((List.range' 1 k).map natToStr)) = natToStr (k + 1) := by
    simp only [chooseVersion, hlen]
    rw [if_pos (by omega)]
  have hsave : saveEntries (some ((List.range' 1 k).map natToStr)) (natToStr (k + 1))
      = (List.range' 1 (k + 1)).map natToStr := by
    simp only [saveEntries, contains_natToStr_next k, Bool.false_eq_true, if_false]
    rw [range'_one_concat k]
    simp
  unfold exportModel
  simp only [if_true]
  rw [hver, hsave]

theorem exportSeq_shift (vf : String → String) (out name : String) :
    ∀ (n k : Nat), 1 ≤ k →
      exportSeq vf out name n ⟨true, some ((List.range' 1 k).map natToStr)⟩ =
        ((List.range' (k + 1) n).map fun v => out ++ "/" ++ vf name ++ "/" ++ natToStr v,
         ⟨true, some ((List.range' 1 (k + n)).map natToStr)⟩) := by
  intro n
  induction n with
  | zero => intro k hk; simp [exportSeq]
  | succ m ih =>
    intro k hk
    have hstep := exportModel_step vf out name k hk
    rw [show exportSeq vf out name (m + 1) ⟨true, some ((List.range' 1 k).map natToStr)⟩
        = (match exportModel vf out name ⟨true, some ((List.range' 1 k).map natToStr)⟩ with
           | .ok (p, st1) =>
             ((p :: (exportSeq vf out name m st1).1), (exportSeq vf out name m st1).2)
           | .error _ => ([], ⟨true, some ((List.range' 1 k).map natToStr)⟩)) from rfl]
    rw [hstep]
    simp only []
    rw [ih (k + 1) (by omega)]
    have harg : k + 1 + m = k + (m + 1) := by omega
    rw [harg, List.range'_succ (k + 1) m 1]
    simp

/-- C1 counterexample: with a single non-numbered entry `foo` present in
the model-name directory, export chooses version `2` (1 + the count of
all entries), while 1 + the count of existing *numbered* subdirectories
is 1 — the claim's invariant fails on this state. -/
theorem export_version_counts_all_entries :
    exportModel (fun s => s) "out" "model" ⟨true, some ["foo"]⟩ =
      .ok ("out/model/2", ⟨true, some ["foo", "2"]⟩) ∧
    numberedCount (some ["foo"]) = 0 ∧
    ("2" : String) ≠ natToStr (1 + numberedCount (some ["foo"])) := by
  refine ⟨by rfl, by rfl, by decide⟩

/-- C1 (amended): the version directory chosen by a successful export is
1 + the count of *all* existing entries of the model-name directory (1
when it is absent or empty), not merely the numbered ones; consequently,
for every sequence of N successful export calls starting from an absent
model-name directory, the chosen version directories are exactly
1, 2, ..., N with no gaps or repeats. -/
theorem export_versions_sequential (vf : String → String) (out name : String)
    (es : List String) (n : Nat) :
    (es ≠ [] → exportModel vf out name ⟨true, some es⟩ =
        .ok (out ++ "/" ++ vf name ++ "/" ++ natToStr (es.length + 1),
             ⟨true, some (saveEntries (some es) (natToStr (es.length + 1)))⟩)) ∧
    (exportSeq vf out name n ⟨true, none⟩).1 =
      (List.range' 1 n).map (fun v => out ++ "/" ++ vf name ++ "/" ++ natToStr v) ∧
    (1 ≤ n → (exportSeq vf out name n ⟨true, none⟩).2 =
      ⟨true, some ((List.range' 1 n).map natToStr)⟩) := by
  constructor
  · intro hne
    have hver : chooseVersion (some es) = natToStr (es.length + 1) := by
      simp only [chooseVersion]
      rw [if_pos (by simpa [List.length_eq_zero] using hne)]
    unfold exportModel
    simp only [if_true]
    rw [hver]
  · have key : ∀ m : Nat, exportSeq vf out name (m + 1) ⟨true, none⟩ =
        ((List.range' 1 (m + 1)).map fun v => out ++ "/" ++ vf name ++ "/" ++ natToStr v,
         ⟨true, some ((List.range' 1 (m + 1)).map natToStr)⟩) := by
      intro m
      have hfirst : exportModel vf out name ⟨true, none⟩ =
          .ok (out ++ "/" ++ vf name ++ "/" ++ natToStr 1,
               ⟨true, some ((List.range' 1 1).map natToStr)⟩) := by
        unfold exportModel
        rfl
      rw [show exportSeq vf out name (m + 1) ⟨true, none⟩
          = (match exportModel vf out name ⟨true, none⟩ with
             | .ok (p, st1) =>
               ((p :: (exportSeq vf out name m st1).1), (exportSeq vf out name m st1).2)
             | .error _ => ([], ⟨true, none⟩)) from rfl]
      rw [hfirst]
      simp only []
      rw [exportSeq_shift vf out name m 1 (by omega)]
      have harg : 1 + m = m + 1 := by omega
      rw [harg, List.range'_succ 1 m 1]
      simp
    cases n with
    | zero =>
      refine ⟨rfl, ?_⟩
      intro h
      exact absurd h (by omega)
    | succ m =>
      rw [key m]
      exact ⟨rfl, fun _ => rfl⟩

theorem export_versions_sequential_witness :
    exportModel (fun s => s) "out" "model" ⟨true, some ["1", "2"]⟩ =
      .ok ("out/model/3", ⟨true, some ["1", "2", "3"]⟩) ∧
    (exportSeq (fun s => s) "out" "model" 3 ⟨true, none⟩).1 =
      ["out/model/1", "out/model/2", "out/model/3"] ∧
    (exportSeq (fun s => s) "out" "model" 3 ⟨true, none⟩).2 =
      ⟨true, some ["1", "2", "3"]⟩ :=
  ⟨(export_versions_sequential (fun s => s) "out" "model" ["1", "2"] 0).1 (by decide),
   (export_versions_sequential (fun s => s) "out" "model" [] 3).2.1,
   (export_versions_sequential (fun s => s) "out" "model" [] 3).2.2 (by decide)⟩

/-- C4: `export` fails with the state error "model hasn't been loaded or
trained yet" exactly when the handle is neither loaded nor trained; when
it is, export returns the path `<output_dir>/<validated name>/<version>`
and records the model there, where — whenever every existing entry is a
numbered subdirectory — the version is 1 + the count of those numbered
subdirectories. -/
theorem export_state_error_and_versioned_path (vf : String → String)
    (out name : String) (st : ExportState) :
    (st.modelLoaded = false → exportModel vf out name st = .error exportErrMsg) ∧
    (st.modelLoaded = true →
      exportModel vf out name st =
        .ok (out ++ "/" ++ vf name ++ "/" ++ chooseVersion st.dirEntries,
             ⟨true, some (saveEntries st.dirEntries (chooseVersion st.dirEntries))⟩) ∧
      ((st.dirEntries.getD []).all isVersionDirName = true →
        chooseVersion st.dirEntries = natToStr (1 + numberedCount st.dirEntries))) := by
  constructor
  · intro h
    unfold exportModel
    rw [h]
    rfl
  · intro h
    constructor
    · unfold exportModel
      rw [h]
      rfl
    · intro hall
      cases hd : st.dirEntries with
      | none => rfl
      | some es =>
        rw [hd] at hall
        simp only [Option.getD_some] at hall
        have hfilter : es.filter isVersionDirName = es :=
          List.filter_eq_self.mpr (List.all_eq_true.mp hall)
        by_cases hlen : es.length = 0
        · have : es = [] := List.length_eq_zero.mp hlen
          subst this
          rfl
        · simp only [chooseVersion, numberedCount, hfilter]
          rw [if_pos hlen, Nat.add_comm]

theorem export_state_error_and_versioned_path_witness :
    exportModel (fun s => s) "out" "m" ⟨false, none⟩ = .error exportErrMsg ∧
    exportModel (fun s => s) "out" "m" ⟨true, some ["1"]⟩ =
      .ok ("out/m/2", ⟨true, some ["1", "2"]⟩) ∧
    chooseVersion (some ["1"]) = natToStr (1 + numberedCount (some ["1"])) :=
  ⟨(export_state_error_and_versioned_path (fun s => s) "out" "m" ⟨false, none⟩).1 rfl,
   ((export_state_error_and_versioned_path (fun s => s) "out" "m" ⟨true, some ["1"]⟩).2
      rfl).1,
   ((export_state_error_and_versioned_path (fun s => s) "out" "m" ⟨true, some ["1"]⟩).2
      rfl).2 (by decide)⟩

/-! ## Auto mixed precision -/

/-- C8 counterexample: on a runtime predating the feature (TF 2.8), a
platform-detection failure in auto mode is caught and treated as disabled
but *not* reported — the code prints the diagnostic only when
`auto_mixed_precision_supported` holds (tf_model.py lines 127-130), so no
message at all is produced, contradicting the claim that any detection
failure is reported with a diagnostic message. -/
theorem amp_detection_failure_unreported_when_unsupported :
    set_auto_mixed_precision none "2.8.0" 2 8 (.error "boom") = ⟨[], none⟩ := by
  rfl

/-- C8 (amended): with the auto (None) setting the optimization is enabled
only when the detected CPU type is SPR; a platform-detection failure is
caught and treated as disabled, never enabling the optimization, and is
reported with a diagnostic message when (and only when) the runtime
supports the feature; when the runtime predates the feature, an explicit
enable request is honored as a no-op with a warning rather than an
error. -/
theorem amp_auto_mode_behavior (ver : String) (tfMajor tfMinor : Nat)
    (cpu e : String) (ct : Except String String) :
    ((set_auto_mixed_precision none ver tfMajor tfMinor (.ok cpu)).optionSet
        = some true → cpu = "SPR") ∧
    ((set_auto_mixed_precision none ver tfMajor tfMinor (.error e)).optionSet
        ≠ some true) ∧
    (ampSupported tfMajor tfMinor = true →
      set_auto_mixed_precision none ver tfMajor tfMinor (.error e) =
        ⟨[cpuDetectMsg e], some false⟩) ∧
    (ampSupported tfMajor tfMinor = false →
      set_auto_mixed_precision (some true) ver tfMajor tfMinor ct =
        ⟨[ampWarning ver], none⟩) := by
  refine ⟨?_, ?_, ?_, ?_⟩
  · intro h
    by_cases hs : ampSupported tfMajor tfMinor <;>
      simp [set_auto_mixed_precision, hs] at h
    exact h
  · intro h
    by_cases hs : ampSupported tfMajor tfMinor <;>
      simp [set_auto_mixed_precision, hs] at h
  · intro hs
    simp [set_auto_mixed_precision, hs]
  · intro hs
    simp [set_auto_mixed_precision, hs]

theorem amp_auto_mode_behavior_witness :
    ("SPR" : String) = "SPR" ∧
    set_auto_mixed_precision none "2.9.1" 2 9 (.error "no cpuinfo") =
      ⟨[cpuDetectMsg "no cpuinfo"], some false⟩ ∧
    set_auto_mixed_precision (some true) "2.8.0" 2 8 (.ok "SPR") =
      ⟨[ampWarning "2.8.0"], none⟩ :=
  ⟨(amp_auto_mode_behavior "2.9.1" 2 9 "SPR" "e" (.ok "SPR")).1 (by decide),
   (amp_auto_mode_behavior "2.9.1" 2 9 "x" "no cpuinfo" (.ok "x")).2.2.1 (by decide),
   (amp_auto_mode_behavior "2.8.0" 2 8 "x" "e" (.ok "SPR")).2.2.2 (by decide)⟩

/-! ## The quantize CLI orchestrator: claims C2, C3, C7, C9 -/

theorem argsValid_fields (inv : QuantizeInvocation) (hargs : argsValid inv = true) :
    inv.modelDirExists = true ∧ inv.datasetDirExists = true ∧
    inv.maxTrials.all validMaxTrials = true ∧
    inv.timeoutArg.all validTimeout = true ∧
    inv.accuracyCriterion.all validAccuracyCriterion = true := by
  simp only [argsValid, Bool.and_eq_true] at hargs
  exact ⟨hargs.1.1.1.1, hargs.1.1.1.2, hargs.1.1.2, hargs.1.2, hargs.2⟩

theorem runQuantize_validated (inv : QuantizeInvocation) (fw : FrameworkType)
    (name : String)
    (hargs : argsValid inv = true)
    (hdet : detectFramework inv.modelDirFiles = some fw)
    (hname : candidateModelName inv.modelDirPath = some name) :
    runQuantize inv =
      if inv.knownModels.contains (name, fw) then
        match inv.incConfig with
        | some cfg =>
          ⟨0, ["Quantized model written to " ++
                (inv.outputDir ++ "/quantized/" ++ name ++ "/" ++
                  natToStr (inv.quantizedEntries.length + 1))],
           [Event.getModel name fw, Event.loadDataset inv.datasetDir,
            Event.quantizeCall (joinPath inv.modelDirPath)
              (inv.outputDir ++ "/quantized/" ++ name ++ "/" ++
                natToStr (inv.quantizedEntries.length + 1)) cfg]⟩
        | none =>
          ⟨0, ["Quantized model written to " ++
                (inv.outputDir ++ "/quantized/" ++ name ++ "/" ++
                  natToStr (inv.quantizedEntries.length + 1))],
           [Event.getModel name fw, Event.loadDataset inv.datasetDir,
            Event.writeIncConfig
              (inv.outputDir ++ "/quantized/" ++ name ++ "/" ++
                natToStr (inv.quantizedEntries.length + 1) ++ "/inc_config.yaml"),
            Event.quantizeCall (joinPath inv.modelDirPath)
              (inv.outputDir ++ "/quantized/" ++ name ++ "/" ++
                natToStr (inv.quantizedEntries.length + 1))
              (inv.outputDir ++ "/quantized/" ++ name ++ "/" ++
                natToStr (inv.quantizedEntries.length + 1) ++ "/inc_config.yaml")]⟩
      else
        ⟨1, ["An error occurred while getting the model",
             "The specified model is not supported for " ++ frameworkStr fw],
         [Event.getModel name fw]⟩ := by
  obtain ⟨hm, hd, hmt, hto, hac⟩ := argsValid_fields inv hargs
  unfold runQuantize
  simp only [hm, hd, hmt, hto, hac, hdet, hname, Bool.not_true, Bool.false_eq_true,
    if_false]
  by_cases hk : (name, fw) ∈ inv.knownModels <;>
    cases hic : inv.incConfig <;> simp [hk, hic]

/-- C7: for every model directory containing neither a `saved_model.pb`
nor a `model.pt` artifact (with otherwise valid arguments), the quantize
invocation exits with code 1 and its output contains the
unsupported-model-file message. -/
theorem quantize_unsupported_model_file (inv : QuantizeInvocation)
    (hargs : argsValid inv = true)
    (hpb : inv.modelDirFiles.contains "saved_model.pb" = false)
    (hpt : inv.modelDirFiles.contains "model.pt" = false) :
    (runQuantize inv).exitCode = 1 ∧
    unsupportedModelMsg ∈ (runQuantize inv).output := by
  obtain ⟨hm, hd, hmt, hto, hac⟩ := argsValid_fields inv hargs
  have hpb2 : "saved_model.pb" ∉ inv.modelDirFiles := by simpa using hpb
  have hpt2 : "model.pt" ∉ inv.modelDirFiles := by simpa using hpt
  have hdet : detectFramework inv.modelDirFiles = none := by
    simp [detectFramework, hpb2, hpt2]
  unfold runQuantize
  simp [hm, hd, hmt, hto, hac, hdet]

theorem quantize_unsupported_model_file_witness :
    (runQuantize { tfSampleInv with
        modelDirFiles := ["unsupported_model_type.txt"] }).exitCode = 1 ∧
    unsupportedModelMsg ∈ (runQuantize { tfSampleInv with
        modelDirFiles := ["unsupported_model_type.txt"] }).output :=
  quantize_unsupported_model_file
    { tfSampleInv with modelDirFiles := ["unsupported_model_type.txt"] }
    (by decide) (by decide) (by decide)

/-- C3: for a model directory whose leaf is a numeric version nested
under a model-name directory, the orchestrator takes the candidate model
name from the model-name directory (not the numeric suffix), maps
`saved_model.pb` to the TensorFlow tag and `model.pt` to the PyTorch tag,
and invokes the model factory exactly once with that (name, framework)
pair. -/
theorem quantize_resolves_name_and_framework (inv : QuantizeInvocation)
    (pre : List String) (name ver : String)
    (hargs : argsValid inv = true)
    (hpath : inv.modelDirPath = pre ++ [name, ver])
    (hver : isVersionDirName ver = true) :
    (inv.modelDirFiles.contains "saved_model.pb" = true →
      getModelEvents (runQuantize inv).events
        = [Event.getModel name FrameworkType.tensorflow]) ∧
    (inv.modelDirFiles.contains "model.pt" = true →
      inv.modelDirFiles.contains "saved_model.pb" = false →
      getModelEvents (runQuantize inv).events
        = [Event.getModel name FrameworkType.pytorch]) := by
  have hname : candidateModelName inv.modelDirPath = some name := by
    rw [hpath]
    unfold candidateModelName
    rw [show pre ++ [name, ver] = (pre ++ [name]) ++ [ver] by simp]
    rw [List.getLast?_concat]
    simp only [hver, if_true, List.dropLast_concat, List.getLast?_concat]
  constructor
  · intro hpb
    have hpb2 : "saved_model.pb" ∈ inv.modelDirFiles := by simpa using hpb
    have hdet : detectFramework inv.modelDirFiles = some .tensorflow := by
      simp [detectFramework, hpb2]
    rw [runQuantize_validated inv .tensorflow name hargs hdet hname]
    by_cases hk : (name, FrameworkType.tensorflow) ∈ inv.knownModels <;>
      cases hic : inv.incConfig <;> simp [hk, hic, getModelEvents]
  · intro hpt hpb
    have hpb2 : "saved_model.pb" ∉ inv.modelDirFiles := by simpa using hpb
    have hpt2 : "model.pt" ∈ inv.modelDirFiles := by simpa using hpt
    have hdet : detectFramework inv.modelDirFiles = some .pytorch := by
      simp [detectFramework, hpb2, hpt2]
    rw [runQuantize_validated inv .pytorch name hargs hdet hname]
    by_cases hk : (name, FrameworkType.pytorch) ∈ inv.knownModels <;>
      cases hic : inv.incConfig <;> simp [hk, hic, getModelEvents]

theorem quantize_resolves_name_and_framework_witness :
    getModelEvents (runQuantize tfSampleInv).events
      = [Event.getModel "efficientnet_b0" FrameworkType.tensorflow] :=
  (quantize_resolves_name_and_framework tfSampleInv ["tmp"] "efficientnet_b0" "3"
    (by decide) (by decide) (by decide)).1 (by decide)

/-- C9: a `--max-trials` value that is zero, negative or non-integer, a
`--timeout` value that is negative or non-integer, or an
`--accuracy-criterion` value outside [0,1] or non-numeric, makes the
invocation exit with the argument-validation code 2 before any model or
dataset work is performed (no collaborator call is made). -/
theorem quantize_rejects_bad_numeric_args (inv : QuantizeInvocation) (a : RawArg)
    (h : (inv.maxTrials = some a ∧ validMaxTrials a = false) ∨
         (inv.timeoutArg = some a ∧ validTimeout a = false) ∨
         (inv.accuracyCriterion = some a ∧ validAccuracyCriterion a = false)) :
    (runQuantize inv).exitCode = 2 ∧ (runQuantize inv).events = [] := by
  unfold runQuantize
  split_ifs with h1 h2 h3 h4 h5
  · exact ⟨rfl, rfl⟩
  · exact ⟨rfl, rfl⟩
  · exact ⟨rfl, rfl⟩
  · exact ⟨rfl, rfl⟩
  · exact ⟨rfl, rfl⟩
  · exfalso
    rcases h with ⟨ha, hv⟩ | ⟨ha, hv⟩ | ⟨ha, hv⟩
    · rw [ha] at h3; simp [Option.all, hv] at h3
    · rw [ha] at h4; simp [Option.all, hv] at h4
    · rw [ha] at h5; simp [Option.all, hv] at h5

theorem quantize_rejects_bad_numeric_args_witness :
    (runQuantize { tfSampleInv with
        maxTrials := some (RawArg.str "foo") }).exitCode = 2 ∧
    (runQuantize { tfSampleInv with
        maxTrials := some (RawArg.str "foo") }).events = [] :=
  quantize_rejects_bad_numeric_args
    { tfSampleInv with maxTrials := some (RawArg.str "foo") }
    (RawArg.str "foo") (Or.inl ⟨rfl, rfl⟩)

/-- C2: a caller-supplied config path (in particular an existing non-empty
one) is used unmodified and config generation is never invoked; when no
config path is supplied, a successful invocation makes exactly one
config-generation call; and `write_inc_config_file` at a fresh path
succeeds once and fails with a file-exists error when invoked a second
time at the same path without overwrite. -/
theorem quantize_config_precedence (inv : QuantizeInvocation) (p path : String)
    (fs : List String) :
    (inv.incConfig = some p →
      countConfigWrites (runQuantize inv).events = 0 ∧
      ∀ md od cfg, Event.quantizeCall md od cfg ∈ (runQuantize inv).events → cfg = p) ∧
    (inv.incConfig = none → (runQuantize inv).exitCode = 0 →
      countConfigWrites (runQuantize inv).events = 1) ∧
    (fs.contains path = false →
      write_inc_config_file fs path false = .ok (fs ++ [path]) ∧
      write_inc_config_file (fs ++ [path]) path false =
        .error ("FileExistsError: " ++ path)) := by
  refine ⟨?_, ?_, ?_⟩
  · intro hp
    unfold runQuantize
    split_ifs with h1 h2 h3 h4 h5
    · exact ⟨rfl, by intro md od cfg hmem; cases hmem⟩
    · exact ⟨rfl, by intro md od cfg hmem; cases hmem⟩
    · exact ⟨rfl, by intro md od cfg hmem; cases hmem⟩
    · exact ⟨rfl, by intro md od cfg hmem; cases hmem⟩
    · exact ⟨rfl, by intro md od cfg hmem; cases hmem⟩
    · rcases hdf : detectFramework inv.modelDirFiles with _ | fw
      · simp [hdf, countConfigWrites]
      · rcases hcn : candidateModelName inv.modelDirPath with _ | name
        · simp [hdf, hcn, countConfigWrites]
        · by_cases hk : (name, fw) ∈ inv.knownModels
          · constructor
            · simp [hdf, hcn, hk, hp, countConfigWrites]
            · intro md od cfg hmem
              simp [hdf, hcn, hk, hp] at hmem
              rcases hmem with ⟨-, -, hcfg⟩
              exact hcfg
          · constructor
            · simp [hdf, hcn, hk, countConfigWrites]
            · intro md od cfg hmem
              simp [hdf, hcn, hk] at hmem
  · intro hp hexit
    unfold runQuantize at hexit ⊢
    split_ifs at hexit ⊢ with h1 h2 h3 h4 h5
    rcases hdf : detectFramework inv.modelDirFiles with _ | fw
    · rw [hdf] at hexit
      cases hexit
    · rcases hcn : candidateModelName inv.modelDirPath with _ | name
      · rw [hdf, hcn] at hexit
        cases hexit
      · by_cases hk : (name, fw) ∈ inv.knownModels
        · simp [hdf, hcn, hk, hp, countConfigWrites]
        · rw [hdf, hcn] at hexit
          simp [hk] at hexit
  · intro hfresh
    constructor
    · unfold write_inc_config_file
      rw [hfresh]
      rfl
    · unfold write_inc_config_file
      have hcont : (fs ++ [path]).contains path = true := by
        simp
      rw [hcont]
      rfl

theorem quantize_config_precedence_witness :
    countConfigWrites (runQuantize { tfSampleInv with
        incConfig := some "tmp/inc_config.yaml" }).events = 0 ∧
    (runQuantize tfSampleInv).exitCode = 0 ∧
    countConfigWrites (runQuantize tfSampleInv).events = 1 ∧
    write_inc_config_file [] "cfg.yaml" false = .ok ["cfg.yaml"] ∧
    write_inc_config_file ["cfg.yaml"] "cfg.yaml" false =
      .error ("FileExistsError: " ++ "cfg.yaml") :=
  ⟨((quantize_config_precedence { tfSampleInv with
        incConfig := some "tmp/inc_config.yaml" } "tmp/inc_config.yaml" "" []).1
      rfl).1,
   by decide,
   (quantize_config_precedence tfSampleInv "" "" []).2.1 rfl (by decide),
   ((quantize_config_precedence tfSampleInv "" "cfg.yaml" []).2.2 (by decide)).1,
   ((quantize_config_precedence tfSampleInv "" "cfg.yaml" []).2.2 (by decide)).2⟩

end TLT
